import Mathlib

/-!
Verification development for the SME hunt engine of the slack_bot repository.

The Python sources are shallowly embedded as Lean definitions:
pure methods become Lean functions, object mutation becomes explicit
state passing, the hunt callbacks become an explicit event log, the
active-hunts dict becomes an association list into a heap of hunt
objects (so that object identity and in-place mutation are preserved),
and wall-clock time becomes an explicit integer parameter.
-/

namespace SlackBot

/-- Model of Python str.lower(): lowercase every character (src uses
only ASCII tags, for which Char.toLower agrees with Python). -/
def pyLower (s : String) : String :=
  String.mk (s.data.map Char.toLower)

/-- Model of Python truthiness of an Optional[str] field: None and the
empty string are falsy, every other string is truthy. -/
def pyTruthyStrOpt (o : Option String) : Bool :=
  match o with
  | none => false
  | some s => !s.isEmpty

/-- Model of the Python idiom x or d for an Optional[int] x: None and 0
select the default d. Mirrors timeout_minutes or settings.hunt_timeout_minutes
in HuntRequest.__init__ (src/services/hunt_service.py line 44). -/
def pyOrInt (v : Option Int) (d : Int) : Int :=
  match v with
  | none => d
  | some m => if m = 0 then d else m

/-- SubjectMatterExpert from src/models/sme.py. skills_rating, a Python
dict from tag to int, is embedded as an association list. -/
structure SubjectMatterExpert where
  slack_id : String
  name : String
  expertise : List String
  availability : Bool
  skills_rating : List (String × Int)
  current_load : Int
  max_concurrent_issues : Int
deriving Repr, DecidableEq

/-- First-match lookup in an association list, the model of dict.get on
skills_rating (dict keys are unique, so first-match is exact). -/
def lookupRating (m : List (String × Int)) (k : String) : Option Int :=
  match m with
  | [] => none
  | p :: rest => if p.1 = k then some p.2 else lookupRating rest k

/-- SubjectMatterExpert.get_rating_for_expertise (sme.py lines 34-36):
self.skills_rating.get(expertise.lower(), 0). Only the query is
lowercased; stored keys are compared verbatim. -/
def SubjectMatterExpert.get_rating_for_expertise
    (e : SubjectMatterExpert) (expertise : String) : Int :=
  (lookupRating e.skills_rating (pyLower expertise)).getD 0

/-- SubjectMatterExpert.has_any_expertise (sme.py lines 25-32): true on
an empty requirement list, else nonempty case-insensitive intersection. -/
def SubjectMatterExpert.has_any_expertise
    (e : SubjectMatterExpert) (required_expertise : List String) : Bool :=
  if required_expertise.isEmpty then true
  else required_expertise.any fun r => e.expertise.any fun x => pyLower r == pyLower x

/-- SubjectMatterExpert.is_available (sme.py lines 38-40). -/
def SubjectMatterExpert.is_available (e : SubjectMatterExpert) : Bool :=
  e.availability && decide (e.current_load < e.max_concurrent_issues)

/-- Ranking key used by SMEDatabase.find_experts_by_expertise (sme.py
lines 88-94) and by the VIP re-sort in hunt_service.py lines 195-201:
(sum of per-tag ratings over the required tags, negated current load). -/
def rankKey (required_expertise : List String)
    (e : SubjectMatterExpert) : Int × Int :=
  ((required_expertise.map fun r => e.get_rating_for_expertise r).sum,
   -e.current_load)

/-- Lexicographic order on ranking keys; Python compares the key tuples
componentwise. -/
def lexLe (p q : Int × Int) : Bool :=
  decide (p.1 < q.1 ∨ (p.1 = q.1 ∧ p.2 ≤ q.2))

/-- One step of stable descending insertion: x is placed before the
first element whose key is lexicographically at most the key of x, so
elements with strictly greater keys stay in front and x precedes all
later-input elements with an equal key. -/
def insertD (k : SubjectMatterExpert → Int × Int) (x : SubjectMatterExpert) :
    List SubjectMatterExpert → List SubjectMatterExpert
  | [] => [x]
  | y :: ys => if lexLe (k y) (k x) then x :: y :: ys else y :: insertD k x ys

/-- Model of Python list.sort(key=k, reverse=True): the unique stable
descending sort for the total preorder induced by the key. -/
def sortD (k : SubjectMatterExpert → Int × Int) :
    List SubjectMatterExpert → List SubjectMatterExpert
  | [] => []
  | x :: xs => insertD k x (sortD k xs)

/-- The filter pass of SMEDatabase.find_experts_by_expertise (sme.py
lines 79-85), in database input order. -/
def matchingExperts (db : List SubjectMatterExpert)
    (required_expertise : List String) (available_only : Bool) :
    List SubjectMatterExpert :=
  db.filter fun e =>
    (!available_only || e.is_available) && e.has_any_expertise required_expertise

/-- SMEDatabase.find_experts_by_expertise (sme.py lines 75-96): filter,
then stable sort descending by (rating sum, -current_load). -/
def find_experts_by_expertise (db : List SubjectMatterExpert)
    (required_expertise : List String) (available_only : Bool) :
    List SubjectMatterExpert :=
  sortD (rankKey required_expertise) (matchingExperts db required_expertise available_only)

/-- A string contains an ASCII uppercase letter. -/
def hasUpperASCII (s : String) : Bool :=
  s.data.any fun c => decide (65 ≤ c.toNat) && decide (c.toNat ≤ 90)

/-- UserLevel from src/models/user.py. -/
inductive UserLevel
  | vip
  | standard
  | regular
deriving Repr, DecidableEq

/-- User from src/models/user.py, restricted to the fields the hunt
engine reads. -/
structure User where
  slack_id : String
  name : String
  level : UserLevel
deriving Repr, DecidableEq

/-- Ticket from src/models/ticket.py, restricted to the fields the hunt
engine reads (the priority argument of find_experts_for_hunt is never
used by its body, so it is omitted). -/
structure Ticket where
  id : String
  user : User
deriving Repr, DecidableEq

/-- Callback invocations of one HuntRequest, recorded as events instead
of calling an opaque function. -/
inductive HuntEvent
  | acceptCb (expert_id expert_name : String)
  | timeoutCb
deriving Repr, DecidableEq

/-- HuntRequest from src/services/hunt_service.py lines 19-77. The two
callbacks are modelled by presence flags plus the HuntEvent log; time is
an explicit integer (one unit = one minute). -/
structure HuntRequest where
  ticket : Ticket
  required_expertise : List String
  has_on_accept_callback : Bool
  has_on_timeout_callback : Bool
  timeout_minutes : Int
  created_at : Int
  expires_at : Int
  notified_experts : List String
  accepted_by : Option String
  is_expired : Bool
deriving Repr, DecidableEq

/-- HuntRequest.__init__ (hunt_service.py lines 22-49):
timeout_minutes = timeout_minutes or settings.hunt_timeout_minutes,
expires_at = created_at + timeout_minutes, fresh settlement fields.
No validation of the timeout is performed. -/
def HuntRequest.init (ticket : Ticket) (required_expertise : List String)
    (has_accept_cb has_timeout_cb : Bool) (timeout_minutes : Option Int)
    (default_timeout : Int) (now : Int) : HuntRequest :=
  let tm := pyOrInt timeout_minutes default_timeout
  { ticket := ticket
    required_expertise := required_expertise
    has_on_accept_callback := has_accept_cb
    has_on_timeout_callback := has_timeout_cb
    timeout_minutes := tm
    created_at := now
    expires_at := now + tm
    notified_experts := []
    accepted_by := none
    is_expired := false }

/-- HuntRequest.is_timed_out (hunt_service.py lines 51-53). -/
def HuntRequest.is_timed_out (h : HuntRequest) (now : Int) : Bool :=
  decide (now > h.expires_at)

/-- HuntRequest.mark_notified (hunt_service.py lines 55-57);
notified_experts is a Python set, modelled as a duplicate-free list. -/
def HuntRequest.mark_notified (h : HuntRequest) (expert_id : String) : HuntRequest :=
  if expert_id ∈ h.notified_experts then h
  else { h with notified_experts := h.notified_experts ++ [expert_id] }

/-- HuntRequest.accept (hunt_service.py lines 59-70). Note the guard
if self.accepted_by uses Python truthiness, so an empty-string claimant
id does not count as an acceptance for later calls. Returns the result,
the updated hunt and the callback events fired. -/
def HuntRequest.accept (h : HuntRequest) (expert_id expert_name : String) :
    Bool × HuntRequest × List HuntEvent :=
  if h.is_expired then (false, h, [])
  else if pyTruthyStrOpt h.accepted_by then (false, h, [])
  else
    (true, { h with accepted_by := some expert_id },
     if h.has_on_accept_callback then [HuntEvent.acceptCb expert_id expert_name]
     else [])

/-- HuntRequest.expire (hunt_service.py lines 72-77): settle to expired
and fire the timeout callback iff not already expired and not accepted
(again a truthiness test on accepted_by). -/
def HuntRequest.expire (h : HuntRequest) : HuntRequest × List HuntEvent :=
  if !h.is_expired && !pyTruthyStrOpt h.accepted_by then
    ({ h with is_expired := true },
     if h.has_on_timeout_callback then [HuntEvent.timeoutCb] else [])
  else (h, [])

/-- A sequential operation applied directly to one HuntRequest object. -/
inductive HuntOp
  | acceptOp (expert_id expert_name : String)
  | expireOp
deriving Repr, DecidableEq

/-- Apply one accept/expire operation to a hunt, returning the updated
hunt and the callback events fired by that operation. -/
def applyHuntOp (h : HuntRequest) (op : HuntOp) : HuntRequest × List HuntEvent :=
  match op with
  | HuntOp.acceptOp eid ename =>
    let r := h.accept eid ename
    (r.2.1, r.2.2)
  | HuntOp.expireOp => h.expire

/-- Run a sequence of accept/expire operations on a hunt, accumulating
the callback events in order. -/
def runHuntOps (h : HuntRequest) : List HuntOp → HuntRequest × List HuntEvent
  | [] => (h, [])
  | op :: ops =>
    let r := applyHuntOp h op
    let rest := runHuntOps r.1 ops
    (rest.1, r.2 ++ rest.2)

/-- Number of on_accept invocations recorded in an event log. -/
def acceptCbCount (evs : List HuntEvent) : Nat :=
  (evs.filter fun e =>
    match e with
    | HuntEvent.acceptCb _ _ => true
    | HuntEvent.timeoutCb => false).length

/-- Number of on_timeout invocations recorded in an event log. -/
def timeoutCbCount (evs : List HuntEvent) : Nat :=
  (evs.filter fun e =>
    match e with
    | HuntEvent.acceptCb _ _ => false
    | HuntEvent.timeoutCb => true).length

/-- First-match lookup in the active-hunts association list (Python
dict access; dict keys are unique). -/
def lookupA (a : List (String × Nat)) (k : String) : Option Nat :=
  match a with
  | [] => none
  | p :: rest => if p.1 = k then some p.2 else lookupA rest k

/-- Dict assignment: replace the value at an existing key in place,
else append the binding. -/
def insertA (a : List (String × Nat)) (k : String) (v : Nat) : List (String × Nat) :=
  match a with
  | [] => [(k, v)]
  | p :: rest => if p.1 = k then (k, v) :: rest else p :: insertA rest k v

/-- Dict pop(k, None): remove every binding of the key (a dict has at
most one). -/
def eraseA (a : List (String × Nat)) (k : String) : List (String × Nat) :=
  a.filter fun p => !(p.1 == k)

/-- HuntService from src/services/hunt_service.py lines 80-257. Hunt
objects live in a heap (list indexed by allocation order) and
active_hunts maps a ticket id to the heap index of its hunt, preserving
Python object identity under mutation and replacement. Engine events
pair the heap index of the hunt whose callback fired with the event. -/
structure HuntService where
  sme_database : List SubjectMatterExpert
  hunt_timeout_minutes : Int
  heap : List HuntRequest
  active_hunts : List (String × Nat)
deriving Repr, DecidableEq

/-- HuntService.get_active_hunt (hunt_service.py lines 247-257). -/
def HuntService.get_active_hunt (s : HuntService) (ticket_id : String) :
    Option HuntRequest :=
  match lookupA s.active_hunts ticket_id with
  | none => none
  | some i => s.heap[i]?

/-- Active binding together with the hunt object it points to. -/
def HuntService.activeHuntIdx (s : HuntService) (ticket_id : String) :
    Option (Nat × HuntRequest) :=
  match lookupA s.active_hunts ticket_id with
  | none => none
  | some i =>
    match s.heap[i]? with
    | none => none
    | some h => some (i, h)

/-- HuntService._find_experts_for_hunt (hunt_service.py lines 174-209):
query available experts, re-sort by the same key for VIP users, and if
nothing was found re-query allowing unavailable experts. -/
def HuntService.find_experts_for_hunt (s : HuntService) (user : User)
    (required_expertise : List String) : List SubjectMatterExpert :=
  let experts := find_experts_by_expertise s.sme_database required_expertise true
  let experts2 :=
    if user.level = UserLevel.vip then sortD (rankKey required_expertise) experts
    else experts
  if experts2.isEmpty then
    find_experts_by_expertise s.sme_database required_expertise false
  else experts2

/-- HuntService.start_hunt (hunt_service.py lines 130-172): construct a
hunt, register it under ticket.id (silently replacing any prior hunt for
that id), find experts and mark them notified on the new hunt. The code
stores the hunt before marking notifications on the same object; the
sequential net effect modelled here is identical. Returns the new state,
the heap index of the created hunt, and the (empty) event log: start_hunt
invokes no callback. -/
def HuntService.start_hunt (s : HuntService) (ticket : Ticket)
    (required_expertise : List String) (has_accept_cb has_timeout_cb : Bool)
    (timeout_minutes : Option Int) (now : Int) :
    HuntService × Nat × List (Nat × HuntEvent) :=
  let hunt := HuntRequest.init ticket required_expertise has_accept_cb
    has_timeout_cb timeout_minutes s.hunt_timeout_minutes now
  let experts := s.find_experts_for_hunt ticket.user required_expertise
  let hunt2 := experts.foldl (fun h e => h.mark_notified e.slack_id) hunt
  let i := s.heap.length
  ({ s with
      heap := s.heap ++ [hunt2]
      active_hunts := insertA s.active_hunts ticket.id i },
   i, [])

/-- HuntService.accept_hunt (hunt_service.py lines 211-234): look up the
active hunt (returning false if none), delegate to HuntRequest.accept,
and on success remove the hunt from the active set. -/
def HuntService.accept_hunt (s : HuntService) (ticket_id expert_id expert_name : String) :
    Bool × HuntService × List (Nat × HuntEvent) :=
  match s.activeHuntIdx ticket_id with
  | none => (false, s, [])
  | some (i, h) =>
    let r := h.accept expert_id expert_name
    let s2 := { s with heap := s.heap.set i r.2.1 }
    if r.1 then
      (true, { s2 with active_hunts := eraseA s2.active_hunts ticket_id },
       r.2.2.map fun e => (i, e))
    else (false, s2, r.2.2.map fun e => (i, e))

/-- Body of the sweep loop in HuntService._monitor_timeouts
(hunt_service.py lines 111-128), first phase: walk the active bindings
in order; for each hunt that is timed out and not yet expired, call
HuntRequest.expire on it (mutating the heap) and record its ticket id
for removal. Returns the new heap, the events fired, and the collected
ticket ids. -/
def sweepAux (now : Int) :
    List (String × Nat) → List HuntRequest →
    List HuntRequest × List (Nat × HuntEvent) × List String
  | [], hp => (hp, [], [])
  | b :: rest, hp =>
    match hp[b.2]? with
    | none => sweepAux now rest hp
    | some h =>
      if h.is_timed_out now && !h.is_expired then
        let r := h.expire
        let rec2 := sweepAux now rest (hp.set b.2 r.1)
        (rec2.1, (r.2.map fun e => (b.2, e)) ++ rec2.2.1, b.1 :: rec2.2.2)
      else sweepAux now rest hp

/-- One full pass of HuntService._monitor_timeouts (hunt_service.py
lines 111-128): expire every timed-out active hunt, then pop each
collected ticket id from the active set. -/
def HuntService.monitor_timeouts_once (s : HuntService) (now : Int) :
    HuntService × List (Nat × HuntEvent) :=
  let r := sweepAux now s.active_hunts s.heap
  ({ s with heap := r.1, active_hunts := r.2.2.foldl eraseA s.active_hunts },
   r.2.1)

/-- Shared memory of one HuntRequest as seen by concurrent accept calls:
the two settlement fields plus the callback log (callbacks supplied). -/
structure RaceShared where
  is_expired : Bool
  accepted_by : Option String
  events : List HuntEvent
deriving Repr, DecidableEq

/-- One thread executing HuntRequest.accept, with a program counter over
its statements: 0 = test is_expired, 1 = test accepted_by, 2 = assign
accepted_by, 3 = invoke the accept callback and return True, 4 = done.
CPython may switch threads between any two of these statements; accept
takes no lock (hunt_service.py lines 59-70). -/
structure RaceThread where
  expert_id : String
  expert_name : String
  pc : Nat
  result : Option Bool
deriving Repr, DecidableEq

/-- Execute one statement of HuntRequest.accept for one thread. -/
def raceStep (sh : RaceShared) (t : RaceThread) : RaceShared × RaceThread :=
  match t.pc with
  | 0 =>
    if sh.is_expired then (sh, { t with pc := 4, result := some false })
    else (sh, { t with pc := 1 })
  | 1 =>
    if pyTruthyStrOpt sh.accepted_by then
      (sh, { t with pc := 4, result := some false })
    else (sh, { t with pc := 2 })
  | 2 => ({ sh with accepted_by := some t.expert_id }, { t with pc := 3 })
  | 3 =>
    ({ sh with events := sh.events ++ [HuntEvent.acceptCb t.expert_id t.expert_name] },
     { t with pc := 4, result := some true })
  | _ => (sh, t)

/-- Run two racing accept calls under a schedule: true picks thread a,
false picks thread b. -/
def runRace (sh : RaceShared) (a b : RaceThread) :
    List Bool → RaceShared × RaceThread × RaceThread
  | [] => (sh, a, b)
  | c :: cs =>
    if c then
      let r := raceStep sh a
      runRace r.1 r.2 b cs
    else
      let r := raceStep sh b
      runRace r.1 a r.2 cs

/-- Concrete ticket used by concrete instantiations below. -/
def ticket1 : Ticket :=
  { id := "t1"
    user := { slack_id := "U1", name := "Alice", level := UserLevel.regular } }

/-- Concrete expert whose only rating is stored under the key Python,
which contains an uppercase letter, while the expertise tag is lower
case. -/
def expertPy : SubjectMatterExpert :=
  { slack_id := "C"
    name := "Cara"
    expertise := ["python"]
    availability := true
    skills_rating := [("Python", 5)]
    current_load := 0
    max_concurrent_issues := 3 }

/-- Concrete fresh hunt used by concrete instantiations below. -/
def huntFresh : HuntRequest :=
  HuntRequest.init ticket1 ["k8s"] true true (some 5) 30 0

/-- An accept operation carries a non-empty expert id (expire trivially
qualifies). -/
def nonEmptyAcceptId (op : HuntOp) : Bool :=
  match op with
  | HuntOp.acceptOp eid _ => !(eid == "")
  | HuntOp.expireOp => true

/-- Number of callback invocations a single firing contributes: 1 when
the callback was supplied, else 0. -/
def cbFlagCount (b : Bool) : Nat :=
  if b then 1 else 0

/-- Invariant of a run of accept/expire operations on one hunt: the hunt
is unsettled with no events, or accepted by a non-empty id with exactly
one accept-callback firing (when supplied) and no timeout firing, or
expired with exactly one timeout-callback firing (when supplied) and no
accept firing. -/
def huntRunInv (h : HuntRequest) (evs : List HuntEvent) : Prop :=
  (h.accepted_by = none ∧ h.is_expired = false ∧
    acceptCbCount evs = 0 ∧ timeoutCbCount evs = 0) ∨
  (∃ e, e ≠ "" ∧ h.accepted_by = some e ∧ h.is_expired = false ∧
    acceptCbCount evs = cbFlagCount h.has_on_accept_callback ∧
    timeoutCbCount evs = 0) ∨
  (h.accepted_by = none ∧ h.is_expired = true ∧
    acceptCbCount evs = 0 ∧
    timeoutCbCount evs = cbFlagCount h.has_on_timeout_callback)

/-- Concrete hunt whose accepted_by holds the empty string: set, but
falsy for the Python truthiness guards. -/
def huntAcceptedEmpty : HuntRequest :=
  { huntFresh with accepted_by := some "" }

/-- Concrete engine state with one active, unsettled hunt for ticket t1
(it expires at time 5). -/
def serviceSmall : HuntService :=
  { sme_database := []
    hunt_timeout_minutes := 30
    heap := [huntFresh]
    active_hunts := [("t1", 0)] }

/-- Concrete engine state whose active hunt for t1 has accepted_by set
to the empty string. -/
def serviceAcceptedEmpty : HuntService :=
  { sme_database := []
    hunt_timeout_minutes := 30
    heap := [huntAcceptedEmpty]
    active_hunts := [("t1", 0)] }

/-- Concrete engine state with one matching expert in the database and
no active hunts. -/
def servicePy : HuntService :=
  { sme_database := [expertPy]
    hunt_timeout_minutes := 30
    heap := []
    active_hunts := [] }

end SlackBot

namespace SlackBot

theorem lexLe_refl (p : Int × Int) : lexLe p p = true := by
  simp [lexLe]

theorem lexLe_total (p q : Int × Int) (h : lexLe p q = false) : lexLe q p = true := by
  simp only [lexLe, decide_eq_false_iff_not, decide_eq_true_eq] at h ⊢
  omega

theorem lexLe_trans (p q r : Int × Int) (h1 : lexLe p q = true)
    (h2 : lexLe q r = true) : lexLe p r = true := by
  simp only [lexLe, decide_eq_true_eq] at h1 h2 ⊢
  omega

theorem mem_insertD (k : SubjectMatterExpert → Int × Int)
    (x a : SubjectMatterExpert) (l : List SubjectMatterExpert) :
    a ∈ insertD k x l ↔ a = x ∨ a ∈ l := by
  induction l with
  | nil => simp [insertD]
  | cons y ys ih =>
    simp only [insertD]
    split
    · simp
    · simp only [List.mem_cons, ih]
      tauto

theorem mem_sortD (k : SubjectMatterExpert → Int × Int)
    (a : SubjectMatterExpert) (l : List SubjectMatterExpert) :
    a ∈ sortD k l ↔ a ∈ l := by
  induction l with
  | nil => simp [sortD]
  | cons y ys ih => simp [sortD, mem_insertD, ih]

theorem length_insertD (k : SubjectMatterExpert → Int × Int)
    (x : SubjectMatterExpert) (l : List SubjectMatterExpert) :
    (insertD k x l).length = l.length + 1 := by
  induction l with
  | nil => simp [insertD]
  | cons y ys ih =>
    simp only [insertD]
    split
    · simp
    · simp [ih]

theorem length_sortD (k : SubjectMatterExpert → Int × Int)
    (l : List SubjectMatterExpert) : (sortD k l).length = l.length := by
  induction l with
  | nil => rfl
  | cons y ys ih => simp [sortD, length_insertD, ih]

theorem pairwise_insertD (k : SubjectMatterExpert → Int × Int)
    (x : SubjectMatterExpert) (l : List SubjectMatterExpert)
    (hl : List.Pairwise (fun a b => lexLe (k b) (k a) = true) l) :
    List.Pairwise (fun a b => lexLe (k b) (k a) = true) (insertD k x l) := by
  induction l with
  | nil => simp [insertD]
  | cons y ys ih =>
    rw [List.pairwise_cons] at hl
    simp only [insertD]
    split
    · rename_i hyx
      rw [List.pairwise_cons]
      refine ⟨?_, List.Pairwise.cons hl.1 hl.2⟩
      intro z hz
      rcases List.mem_cons.mp hz with hz | hz
      · subst hz; exact hyx
      · exact lexLe_trans _ _ _ (hl.1 z hz) hyx
    · rename_i hyx
      rw [List.pairwise_cons]
      refine ⟨?_, ih hl.2⟩
      intro z hz
      rcases (mem_insertD k x z ys).mp hz with hz | hz
      · subst hz
        exact lexLe_total _ _ (Bool.eq_false_iff.mpr hyx)
      · exact hl.1 z hz

theorem pairwise_sortD (k : SubjectMatterExpert → Int × Int)
    (l : List SubjectMatterExpert) :
    List.Pairwise (fun a b => lexLe (k b) (k a) = true) (sortD k l) := by
  induction l with
  | nil => simp [sortD]
  | cons y ys ih => exact pairwise_insertD k y (sortD k ys) ih

theorem filter_insertD (k : SubjectMatterExpert → Int × Int)
    (x : SubjectMatterExpert) (l : List SubjectMatterExpert) (k0 : Int × Int) :
    (insertD k x l).filter (fun e => k e == k0) =
      if k x == k0 then x :: l.filter (fun e => k e == k0)
      else l.filter (fun e => k e == k0) := by
  induction l with
  | nil => simp [insertD, List.filter_cons]
  | cons y ys ih =>
    simp only [insertD]
    split
    · rename_i hyx
      by_cases hx : k x == k0 <;> simp [List.filter_cons, hx]
    · rename_i hyx
      by_cases hx : k x == k0
      · have hyne : (k y == k0) = false := by
          apply beq_eq_false_iff_ne.mpr
          intro hyk
          apply hyx
          have : k y = k x := by
            rw [hyk]
            exact (beq_iff_eq.mp hx).symm
          rw [this]
          exact lexLe_refl (k x)
        simp [List.filter_cons, hyne, ih, hx]
      · by_cases hy : k y == k0 <;> simp [List.filter_cons, hy, ih, hx]

theorem filter_sortD (k : SubjectMatterExpert → Int × Int)
    (l : List SubjectMatterExpert) (k0 : Int × Int) :
    (sortD k l).filter (fun e => k e == k0) = l.filter (fun e => k e == k0) := by
  induction l with
  | nil => rfl
  | cons y ys ih =>
    simp only [sortD]
    rw [filter_insertD]
    by_cases hy : k y == k0 <;> simp [List.filter_cons, hy, ih]

theorem has_any_expertise_iff (e : SubjectMatterExpert) (T : List String) :
    e.has_any_expertise T = true ↔
      (T = [] ∨ ∃ t ∈ T, ∃ x ∈ e.expertise, pyLower t = pyLower x) := by
  unfold SubjectMatterExpert.has_any_expertise
  by_cases hT : T = []
  · simp [hT]
  · simp [hT, List.isEmpty_iff, List.any_eq_true, beq_iff_eq]

/-- C5: with the availability filter on, find_experts_by_expertise
returns exactly the experts of the database that are available and whose
tags intersect the required tags case-insensitively (every expert
matches when the requirement list is empty); an empty database, and a
database with no match, yield the empty list. -/
theorem find_by_expertise_exact_membership (db : List SubjectMatterExpert)
    (T : List String) :
    (∀ e : SubjectMatterExpert,
      e ∈ find_experts_by_expertise db T true ↔
        e ∈ db ∧ e.is_available = true ∧
          (T = [] ∨ ∃ t ∈ T, ∃ x ∈ e.expertise, pyLower t = pyLower x)) ∧
    find_experts_by_expertise [] T true = [] ∧
    ((∀ e ∈ db, ¬(e.is_available = true ∧
        (T = [] ∨ ∃ t ∈ T, ∃ x ∈ e.expertise, pyLower t = pyLower x))) →
      find_experts_by_expertise db T true = []) := by
  have hmem : ∀ e : SubjectMatterExpert,
      e ∈ find_experts_by_expertise db T true ↔
        e ∈ db ∧ e.is_available = true ∧
          (T = [] ∨ ∃ t ∈ T, ∃ x ∈ e.expertise, pyLower t = pyLower x) := by
    intro e
    unfold find_experts_by_expertise
    rw [mem_sortD]
    unfold matchingExperts
    rw [List.mem_filter]
    simp only [Bool.not_true, Bool.false_or, Bool.and_eq_true, and_assoc,
      has_any_expertise_iff]
  refine ⟨hmem, rfl, ?_⟩
  intro hnone
  apply List.eq_nil_iff_forall_not_mem.mpr
  intro e he
  rcases (hmem e).mp he with ⟨hdb, hav, hint⟩
  exact hnone e hdb ⟨hav, hint⟩

/-- Witness for the no-match clause of the C5 theorem at a concrete
database and tag list. -/
theorem find_by_expertise_exact_membership_witness :
    (expertPy ∈ find_experts_by_expertise [expertPy] ["python"] true ↔
      expertPy ∈ [expertPy] ∧ expertPy.is_available = true ∧
        ((["python"] : List String) = [] ∨
          ∃ t ∈ ["python"], ∃ x ∈ expertPy.expertise, pyLower t = pyLower x)) ∧
    find_experts_by_expertise [] ["python"] true = [] ∧
    ((∀ e ∈ [expertPy], ¬(e.is_available = true ∧
        ((["python"] : List String) = [] ∨
          ∃ t ∈ ["python"], ∃ x ∈ e.expertise, pyLower t = pyLower x))) →
      find_experts_by_expertise [expertPy] ["python"] true = []) :=
  ⟨(find_by_expertise_exact_membership [expertPy] ["python"]).1 expertPy,
   (find_by_expertise_exact_membership [expertPy] ["python"]).2.1,
   (find_by_expertise_exact_membership [expertPy] ["python"]).2.2⟩

/-- C6: the list returned by find_experts_by_expertise is sorted in
descending lexicographic order of the ranking key (rating sum over the
required tags, then negated current load, so lower load first on equal
sums), and experts with equal keys keep the relative order they have in
the filtered database, which preserves database input order. -/
theorem find_by_expertise_ranking (db : List SubjectMatterExpert)
    (T : List String) (available_only : Bool) :
    List.Pairwise (fun a b => lexLe (rankKey T b) (rankKey T a) = true)
      (find_experts_by_expertise db T available_only) ∧
    ∀ k0 : Int × Int,
      (find_experts_by_expertise db T available_only).filter
          (fun e => rankKey T e == k0) =
        (matchingExperts db T available_only).filter
          (fun e => rankKey T e == k0) := by
  constructor
  · exact pairwise_sortD (rankKey T) (matchingExperts db T available_only)
  · intro k0
    exact filter_sortD (rankKey T) (matchingExperts db T available_only) k0

theorem char_toLower_not_upper (c : Char) :
    (Char.toLower c).toNat < 65 ∨ 90 < (Char.toLower c).toNat := by
  simp only [Char.toLower]
  split
  · rename_i h
    obtain ⟨h1, h2⟩ := h
    revert h1 h2
    generalize c.toNat = n
    intro h1 h2
    interval_cases n <;> decide
  · rename_i h
    omega

theorem hasUpperASCII_pyLower (s : String) :
    hasUpperASCII (pyLower s) = false := by
  unfold hasUpperASCII pyLower
  rw [List.any_eq_false]
  intro c hc
  rcases List.mem_map.mp hc with ⟨c0, _, rfl⟩
  have := char_toLower_not_upper c0
  simp only [Bool.and_eq_true, decide_eq_true_eq, not_and]
  omega

theorem lookupRating_eq_none (m : List (String × Int)) (k : String)
    (h : ∀ p ∈ m, p.1 ≠ k) : lookupRating m k = none := by
  induction m with
  | nil => rfl
  | cons p rest ih =>
    unfold lookupRating
    rw [if_neg (h p (List.mem_cons_self p rest))]
    exact ih fun q hq => h q (List.mem_cons_of_mem p hq)

/-- C10: get_rating_for_expertise lowercases only the queried tag while
stored skills_rating keys are matched verbatim, so when every stored key
contains an uppercase letter, every lookup returns 0 and the ranking sum
over any required-tag list is 0 — even for an expert whose expertise
matches the query case-insensitively. -/
theorem get_rating_uppercase_keys_zero (e : SubjectMatterExpert) (q : String)
    (hk : ∀ p ∈ e.skills_rating, hasUpperASCII p.1 = true) :
    e.get_rating_for_expertise q = 0 ∧
      ∀ T : List String, (rankKey T e).1 = 0 := by
  have hget : ∀ r : String, e.get_rating_for_expertise r = 0 := by
    intro r
    unfold SubjectMatterExpert.get_rating_for_expertise
    have hnone : lookupRating e.skills_rating (pyLower r) = none := by
      apply lookupRating_eq_none
      intro p hp hcontra
      have hup := hk p hp
      rw [hcontra, hasUpperASCII_pyLower] at hup
      exact Bool.false_ne_true hup
    rw [hnone]
    rfl
  refine ⟨hget q, ?_⟩
  intro T
  unfold rankKey
  apply List.sum_eq_zero
  intro x hx
  rcases List.mem_map.mp hx with ⟨r, _, rfl⟩
  exact hget r

/-- Witness for the C10 theorem: a concrete expert with expertise tag
python and the rating stored under the key Python; the case-insensitive
expertise match succeeds while the rating lookup returns 0. -/
theorem get_rating_uppercase_keys_zero_witness :
    (∀ p ∈ expertPy.skills_rating, hasUpperASCII p.1 = true) ∧
    expertPy.has_any_expertise ["Python"] = true ∧
    (expertPy.get_rating_for_expertise "Python" = 0 ∧
      ∀ T : List String, (rankKey T expertPy).1 = 0) :=
  ⟨by decide, by decide,
   get_rating_uppercase_keys_zero expertPy "Python" (by decide)⟩

theorem acceptCbCount_append (l1 l2 : List HuntEvent) :
    acceptCbCount (l1 ++ l2) = acceptCbCount l1 + acceptCbCount l2 := by
  simp [acceptCbCount, List.filter_append]

theorem timeoutCbCount_append (l1 l2 : List HuntEvent) :
    timeoutCbCount (l1 ++ l2) = timeoutCbCount l1 + timeoutCbCount l2 := by
  simp [timeoutCbCount, List.filter_append]

theorem applyHuntOp_accepted_frozen (h : HuntRequest) (op : HuntOp) (e : String)
    (he : e ≠ "") (ha : h.accepted_by = some e) : applyHuntOp h op = (h, []) := by
  have hie : e.isEmpty = false := by
    by_cases hb : e.isEmpty
    · exact absurd ((String.isEmpty_iff e).mp hb) he
    · simpa using hb
  have htr : pyTruthyStrOpt h.accepted_by = true := by
    rw [ha]
    simp [pyTruthyStrOpt, hie]
  cases op with
  | acceptOp eid ename =>
    unfold applyHuntOp HuntRequest.accept
    by_cases hx : h.is_expired <;> simp [hx, htr]
  | expireOp =>
    unfold applyHuntOp HuntRequest.expire
    simp [htr]

theorem applyHuntOp_expired_frozen (h : HuntRequest) (op : HuntOp)
    (hx : h.is_expired = true) : applyHuntOp h op = (h, []) := by
  cases op with
  | acceptOp eid ename =>
    unfold applyHuntOp HuntRequest.accept
    simp [hx]
  | expireOp =>
    unfold applyHuntOp HuntRequest.expire
    simp [hx]

theorem runHuntOps_accepted_frozen (ops : List HuntOp) (h : HuntRequest)
    (e : String) (he : e ≠ "") (ha : h.accepted_by = some e) :
    runHuntOps h ops = (h, []) := by
  induction ops with
  | nil => rfl
  | cons op rest ih =>
    unfold runHuntOps
    rw [applyHuntOp_accepted_frozen h op e he ha]
    simp [ih]

theorem runHuntOps_expired_frozen (ops : List HuntOp) (h : HuntRequest)
    (hx : h.is_expired = true) : runHuntOps h ops = (h, []) := by
  induction ops with
  | nil => rfl
  | cons op rest ih =>
    unfold runHuntOps
    rw [applyHuntOp_expired_frozen h op hx]
    simp [ih]

theorem runHuntOps_append (h : HuntRequest) (l1 l2 : List HuntOp) :
    runHuntOps h (l1 ++ l2) =
      ((runHuntOps (runHuntOps h l1).1 l2).1,
       (runHuntOps h l1).2 ++ (runHuntOps (runHuntOps h l1).1 l2).2) := by
  induction l1 generalizing h with
  | nil => simp [runHuntOps]
  | cons op rest ih =>
    simp only [List.cons_append, runHuntOps, List.append_eq]
    rw [ih]
    simp [List.append_assoc]

theorem huntRunInv_step (h : HuntRequest) (evs : List HuntEvent) (op : HuntOp)
    (hop : nonEmptyAcceptId op = true) (hinv : huntRunInv h evs) :
    huntRunInv (applyHuntOp h op).1 (evs ++ (applyHuntOp h op).2) := by
  rcases hinv with ⟨ha, hx, hac, htc⟩ | ⟨e, he, ha, hx, hac, htc⟩ | ⟨ha, hx, hac, htc⟩
  · cases op with
    | acceptOp eid ename =>
      have heid : ¬eid = "" := by
        simpa [nonEmptyAcceptId] using hop
      unfold applyHuntOp HuntRequest.accept
      rw [hx, ha]
      simp only [pyTruthyStrOpt, Bool.false_eq_true, if_false]
      refine Or.inr (Or.inl ⟨eid, heid, rfl, rfl, ?_, ?_⟩)
      · rw [acceptCbCount_append, hac]
        by_cases hf : h.has_on_accept_callback <;>
          simp [hf, acceptCbCount, cbFlagCount, List.filter_cons]
      · rw [timeoutCbCount_append, htc]
        by_cases hf : h.has_on_accept_callback <;>
          simp [hf, timeoutCbCount, List.filter_cons]
    | expireOp =>
      unfold applyHuntOp HuntRequest.expire
      rw [hx, ha]
      simp only [pyTruthyStrOpt, Bool.not_false, Bool.and_self, if_true]
      refine Or.inr (Or.inr ⟨rfl, rfl, ?_, ?_⟩)
      · rw [acceptCbCount_append, hac]
        by_cases hf : h.has_on_timeout_callback <;>
          simp [hf, acceptCbCount, List.filter_cons]
      · rw [timeoutCbCount_append, htc]
        by_cases hf : h.has_on_timeout_callback <;>
          simp [hf, timeoutCbCount, cbFlagCount, List.filter_cons]
  · rw [applyHuntOp_accepted_frozen h op e he ha]
    exact Or.inr (Or.inl ⟨e, he, ha, hx, by simpa using hac, by simpa using htc⟩)
  · rw [applyHuntOp_expired_frozen h op hx]
    exact Or.inr (Or.inr ⟨ha, hx, by simpa using hac, by simpa using htc⟩)

theorem runHuntOps_inv (ops : List HuntOp) (h : HuntRequest)
    (evs0 : List HuntEvent) (hops : ∀ op ∈ ops, nonEmptyAcceptId op = true)
    (hinv : huntRunInv h evs0) :
    huntRunInv (runHuntOps h ops).1 (evs0 ++ (runHuntOps h ops).2) := by
  induction ops generalizing h evs0 with
  | nil => simpa [runHuntOps] using hinv
  | cons op rest ih =>
    have hstep := huntRunInv_step h evs0 op
      (hops op (List.mem_cons_self op rest)) hinv
    have := ih (applyHuntOp h op).1 (evs0 ++ (applyHuntOp h op).2)
      (fun o ho => hops o (List.mem_cons_of_mem op ho)) hstep
    unfold runHuntOps
    simpa [List.append_assoc] using this

/-- C2 (amended): over any sequence of accept and expire operations in
which every accept carries a non-empty expert id, a hunt settles at most
once: accepted_by set and is_expired true are mutually exclusive, each
is permanent across any extension of the sequence, and the accept and
timeout callbacks fire at most once each and never both. (The amendment
is forced by Python truthiness: an accept with the empty-string expert
id sets accepted_by yet leaves the hunt claimable and expirable.) -/
theorem hunt_settles_at_most_once (h0 : HuntRequest) (ops : List HuntOp)
    (ha : h0.accepted_by = none) (hx : h0.is_expired = false)
    (hops : ∀ op ∈ ops, nonEmptyAcceptId op = true) :
    ¬((runHuntOps h0 ops).1.accepted_by.isSome = true ∧
        (runHuntOps h0 ops).1.is_expired = true) ∧
    acceptCbCount (runHuntOps h0 ops).2 ≤ 1 ∧
    timeoutCbCount (runHuntOps h0 ops).2 ≤ 1 ∧
    ¬(1 ≤ acceptCbCount (runHuntOps h0 ops).2 ∧
        1 ≤ timeoutCbCount (runHuntOps h0 ops).2) ∧
    (∀ l1 l2 : List HuntOp, ops = l1 ++ l2 → ∀ e : String,
      (runHuntOps h0 l1).1.accepted_by = some e →
      (runHuntOps h0 ops).1.accepted_by = some e) ∧
    (∀ l1 l2 : List HuntOp, ops = l1 ++ l2 →
      (runHuntOps h0 l1).1.is_expired = true →
      (runHuntOps h0 ops).1.is_expired = true) := by
  have hinv0 : huntRunInv h0 [] := Or.inl ⟨ha, hx, rfl, rfl⟩
  have hinv := runHuntOps_inv ops h0 [] hops hinv0
  rw [List.nil_append] at hinv
  have hprefix : ∀ l1 l2 : List HuntOp, ops = l1 ++ l2 →
      huntRunInv (runHuntOps h0 l1).1 (runHuntOps h0 l1).2 := by
    intro l1 l2 hsplit
    have h1 := runHuntOps_inv l1 h0 []
      (fun o ho => hops o (hsplit ▸ List.mem_append_left l2 ho)) hinv0
    rwa [List.nil_append] at h1
  have hflag : ∀ b : Bool, cbFlagCount b ≤ 1 := by
    intro b
    cases b <;> simp [cbFlagCount]
  refine ⟨?_, ?_, ?_, ?_, ?_, ?_⟩
  · rcases hinv with ⟨h1, h2, _⟩ | ⟨e, _, h1, h2, _⟩ | ⟨h1, h2, _⟩ <;>
      simp [h1, h2]
  · rcases hinv with ⟨_, _, h3, _⟩ | ⟨e, _, _, _, h3, _⟩ | ⟨_, _, h3, _⟩
    · rw [h3]; omega
    · rw [h3]; exact hflag _
    · rw [h3]; omega
  · rcases hinv with ⟨_, _, _, h4⟩ | ⟨e, _, _, _, _, h4⟩ | ⟨_, _, _, h4⟩
    · rw [h4]; omega
    · rw [h4]; omega
    · rw [h4]; exact hflag _
  · rcases hinv with ⟨_, _, h3, _⟩ | ⟨e, _, _, _, _, h4⟩ | ⟨_, _, h3, _⟩
    · rw [h3]; omega
    · rw [h4]; omega
    · rw [h3]; omega
  · intro l1 l2 hsplit e hacc
    have he : e ≠ "" := by
      rcases hprefix l1 l2 hsplit with ⟨h1, _⟩ | ⟨e2, he2, h1, _⟩ | ⟨h1, _⟩
      · rw [hacc] at h1; cases h1
      · rw [hacc] at h1
        exact (Option.some_inj.mp h1) ▸ he2
      · rw [hacc] at h1; cases h1
    rw [hsplit, runHuntOps_append,
      runHuntOps_accepted_frozen l2 (runHuntOps h0 l1).1 e he hacc]
    exact hacc
  · intro l1 l2 hsplit hexp
    rw [hsplit, runHuntOps_append,
      runHuntOps_expired_frozen l2 (runHuntOps h0 l1).1 hexp]
    exact hexp

/-- Witness for the amended C2 theorem at a concrete hunt and a concrete
accept-then-expire sequence with a non-empty expert id. -/
theorem hunt_settles_at_most_once_witness :
    (huntFresh.accepted_by = none ∧ huntFresh.is_expired = false ∧
      (∀ op ∈ [HuntOp.acceptOp "E" "N", HuntOp.expireOp],
        nonEmptyAcceptId op = true)) ∧
    (¬((runHuntOps huntFresh [HuntOp.acceptOp "E" "N", HuntOp.expireOp]).1.accepted_by.isSome = true ∧
        (runHuntOps huntFresh [HuntOp.acceptOp "E" "N", HuntOp.expireOp]).1.is_expired = true) ∧
      acceptCbCount (runHuntOps huntFresh [HuntOp.acceptOp "E" "N", HuntOp.expireOp]).2 ≤ 1 ∧
      timeoutCbCount (runHuntOps huntFresh [HuntOp.acceptOp "E" "N", HuntOp.expireOp]).2 ≤ 1 ∧
      ¬(1 ≤ acceptCbCount (runHuntOps huntFresh [HuntOp.acceptOp "E" "N", HuntOp.expireOp]).2 ∧
          1 ≤ timeoutCbCount (runHuntOps huntFresh [HuntOp.acceptOp "E" "N", HuntOp.expireOp]).2) ∧
      (∀ l1 l2 : List HuntOp,
        [HuntOp.acceptOp "E" "N", HuntOp.expireOp] = l1 ++ l2 → ∀ e : String,
        (runHuntOps huntFresh l1).1.accepted_by = some e →
        (runHuntOps huntFresh [HuntOp.acceptOp "E" "N", HuntOp.expireOp]).1.accepted_by = some e) ∧
      (∀ l1 l2 : List HuntOp,
        [HuntOp.acceptOp "E" "N", HuntOp.expireOp] = l1 ++ l2 →
        (runHuntOps huntFresh l1).1.is_expired = true →
        (runHuntOps huntFresh [HuntOp.acceptOp "E" "N", HuntOp.expireOp]).1.is_expired = true)) :=
  ⟨⟨by decide, by decide, by decide⟩,
   hunt_settles_at_most_once huntFresh [HuntOp.acceptOp "E" "N", HuntOp.expireOp]
     (by decide) (by decide) (by decide)⟩

/-- Counterexample to C2 as stated: an accept with the empty-string
expert id (a falsy value in Python) sets accepted_by, yet a following
expire also succeeds, so both settlement fields become true and both
callbacks fire on the same hunt. -/
theorem hunt_settlement_both_flags_set :
    ((runHuntOps huntFresh [HuntOp.acceptOp "" "Ghost", HuntOp.expireOp]).1.accepted_by.isSome = true) ∧
    ((runHuntOps huntFresh [HuntOp.acceptOp "" "Ghost", HuntOp.expireOp]).1.is_expired = true) ∧
    acceptCbCount (runHuntOps huntFresh [HuntOp.acceptOp "" "Ghost", HuntOp.expireOp]).2 = 1 ∧
    timeoutCbCount (runHuntOps huntFresh [HuntOp.acceptOp "" "Ghost", HuntOp.expireOp]).2 = 1 := by
  decide

/-- C9: constructing a hunt with a non-positive timeout does not fail
fast: an explicit negative timeout is accepted verbatim and yields an
expiry in the past, an explicit zero silently falls back to the
configured default through Python or-falsiness, and a non-positive
configured default is likewise accepted. -/
theorem hunt_init_accepts_nonpositive_timeout :
    (HuntRequest.init ticket1 ["db"] true true (some (-5)) 30 100).timeout_minutes = -5 ∧
    (HuntRequest.init ticket1 ["db"] true true (some (-5)) 30 100).expires_at = 95 ∧
    (HuntRequest.init ticket1 ["db"] true true (some (-5)) 30 100).expires_at <
      (HuntRequest.init ticket1 ["db"] true true (some (-5)) 30 100).created_at ∧
    (HuntRequest.init ticket1 ["db"] true true (some 0) 30 100).timeout_minutes = 30 ∧
    (HuntRequest.init ticket1 ["db"] true true none (-3) 100).expires_at = 97 := by
  decide

/-- C1: HuntRequest.accept takes no lock around its check-then-set, so
under the statement-level interleaving in which both racing accept calls
pass the is_expired and accepted_by guards before either assignment,
both calls return True and the accept callback fires twice — refuting
the exactly-once-acceptance guarantee the code was required to provide. -/
theorem accept_race_two_winners :
    ((runRace { is_expired := false, accepted_by := none, events := [] }
        { expert_id := "E1", expert_name := "N1", pc := 0, result := none }
        { expert_id := "E2", expert_name := "N2", pc := 0, result := none }
        [true, true, false, false, true, true, false, false]).2.1.result = some true) ∧
    ((runRace { is_expired := false, accepted_by := none, events := [] }
        { expert_id := "E1", expert_name := "N1", pc := 0, result := none }
        { expert_id := "E2", expert_name := "N2", pc := 0, result := none }
        [true, true, false, false, true, true, false, false]).2.2.result = some true) ∧
    acceptCbCount
      ((runRace { is_expired := false, accepted_by := none, events := [] }
        { expert_id := "E1", expert_name := "N1", pc := 0, result := none }
        { expert_id := "E2", expert_name := "N2", pc := 0, result := none }
        [true, true, false, false, true, true, false, false]).1.events) = 2 := by
  decide

theorem set_getElem_self (l : List HuntRequest) :
    ∀ (i : Nat) (a : HuntRequest), l[i]? = some a → l.set i a = l := by
  induction l with
  | nil =>
    intro i a h
    simp at h
  | cons x xs ih =>
    intro i a h
    cases i with
    | zero =>
      simp only [List.getElem?_cons_zero, Option.some_inj] at h
      rw [← h]
      rfl
    | succ n =>
      simp only [List.getElem?_cons_succ] at h
      simp only [List.set]
      rw [ih n a h]

theorem lookupA_mem_values (a : List (String × Nat)) (k : String) (i : Nat)
    (h : lookupA a k = some i) : i ∈ a.map Prod.snd := by
  induction a with
  | nil => cases h
  | cons p rest ih =>
    unfold lookupA at h
    by_cases hp : p.1 = k
    · rw [if_pos hp, Option.some_inj] at h
      exact List.mem_map.mpr ⟨p, List.mem_cons_self p rest, h⟩
    · rw [if_neg hp] at h
      exact List.mem_cons_of_mem p.2 (ih h)

theorem lookupA_eraseA_self (a : List (String × Nat)) (k : String) :
    lookupA (eraseA a k) k = none := by
  induction a with
  | nil => rfl
  | cons p rest ih =>
    unfold eraseA at ih ⊢
    rw [List.filter_cons]
    split
    · rename_i hcond
      have hp : p.1 ≠ k := by
        intro he
        rw [he] at hcond
        simp at hcond
      unfold lookupA
      rw [if_neg hp]
      exact ih
    · exact ih

theorem lookupA_eraseA_of_none (a : List (String × Nat)) (k k2 : String)
    (h : lookupA a k = none) : lookupA (eraseA a k2) k = none := by
  induction a with
  | nil => rfl
  | cons p rest ih =>
    unfold lookupA at h
    by_cases hp : p.1 = k
    · rw [if_pos hp] at h
      cases h
    · rw [if_neg hp] at h
      unfold eraseA at ih ⊢
      rw [List.filter_cons]
      split
      · unfold lookupA
        rw [if_neg hp]
        exact ih h
      · exact ih h

theorem lookupA_foldl_eraseA_of_none (l : List String) (a : List (String × Nat))
    (k : String) (h : lookupA a k = none) :
    lookupA (l.foldl eraseA a) k = none := by
  induction l generalizing a with
  | nil => exact h
  | cons x rest ih =>
    simp only [List.foldl_cons]
    exact ih (eraseA a x) (lookupA_eraseA_of_none a k x h)

theorem lookupA_foldl_eraseA_mem (l : List String) (a : List (String × Nat))
    (k : String) (hk : k ∈ l) : lookupA (l.foldl eraseA a) k = none := by
  induction l generalizing a with
  | nil => cases hk
  | cons x rest ih =>
    rcases List.mem_cons.mp hk with hx | hx
    · subst hx
      simp only [List.foldl_cons]
      exact lookupA_foldl_eraseA_of_none rest (eraseA a k) k (lookupA_eraseA_self a k)
    · simp only [List.foldl_cons]
      exact ih (eraseA a x) hx

theorem sweepAux_getElem_not_mem (now : Int) :
    ∀ (act : List (String × Nat)) (hp : List HuntRequest) (i : Nat),
      i ∉ act.map Prod.snd → (sweepAux now act hp).1[i]? = hp[i]? := by
  intro act
  induction act with
  | nil =>
    intro hp i hi
    rfl
  | cons b rest ih =>
    intro hp i hi
    simp only [List.map_cons, List.mem_cons] at hi
    push_neg at hi
    obtain ⟨h1, h2⟩ := hi
    unfold sweepAux
    cases hhp : hp[b.2]? with
    | none => exact ih hp i h2
    | some h =>
      simp only
      split
      · simp only
        rw [ih (hp.set b.2 h.expire.1) i h2]
        exact List.getElem?_set_ne (fun he => h1 he.symm)
      · exact ih hp i h2

theorem sweepAux_event_idx (now : Int) :
    ∀ (act : List (String × Nat)) (hp : List HuntRequest)
      (p : Nat × HuntEvent), p ∈ (sweepAux now act hp).2.1 →
      p.1 ∈ act.map Prod.snd := by
  intro act
  induction act with
  | nil =>
    intro hp p hp2
    cases hp2
  | cons b rest ih =>
    intro hp p hmem
    simp only [List.map_cons, List.mem_cons]
    unfold sweepAux at hmem
    cases hhp : hp[b.2]? with
    | none =>
      rw [hhp] at hmem
      exact Or.inr (ih hp p hmem)
    | some h =>
      rw [hhp] at hmem
      simp only at hmem
      by_cases hc : (h.is_timed_out now && !h.is_expired) = true
      · rw [if_pos hc] at hmem
        simp only at hmem
        rcases List.mem_append.mp hmem with hL | hR
        · rcases List.mem_map.mp hL with ⟨e, _, rfl⟩
          exact Or.inl rfl
        · exact Or.inr (ih (hp.set b.2 h.expire.1) p hR)
      · rw [if_neg hc] at hmem
        exact Or.inr (ih hp p hmem)

theorem sweepAux_expires (now : Int) :
    ∀ (act : List (String × Nat)) (hp : List HuntRequest) (R : String)
      (i : Nat) (h : HuntRequest),
      (act.map Prod.snd).Nodup →
      lookupA act R = some i →
      hp[i]? = some h →
      now > h.expires_at → h.is_expired = false → h.accepted_by = none →
      h.has_on_timeout_callback = true →
      (sweepAux now act hp).1[i]? = some { h with is_expired := true } ∧
      List.count (i, HuntEvent.timeoutCb) (sweepAux now act hp).2.1 = 1 ∧
      R ∈ (sweepAux now act hp).2.2 := by
  intro act
  induction act with
  | nil =>
    intro hp R i h _ hlk
    cases hlk
  | cons b rest ih =>
    intro hp R i h hnd hlk hhp ht hx hacc hcb
    have hnd2 : (b.2 :: rest.map Prod.snd).Nodup := by
      rw [List.map_cons] at hnd
      exact hnd
    obtain ⟨hbni, hndr⟩ := List.nodup_cons.mp hnd2
    unfold lookupA at hlk
    by_cases hbR : b.1 = R
    · rw [if_pos hbR, Option.some_inj] at hlk
      subst hlk
      have hexp : h.expire = ({ h with is_expired := true }, [HuntEvent.timeoutCb]) := by
        unfold HuntRequest.expire
        rw [hx, hacc]
        simp [pyTruthyStrOpt, hcb]
      have hcond : (h.is_timed_out now && !h.is_expired) = true := by
        simp [HuntRequest.is_timed_out, ht, hx]
      unfold sweepAux
      rw [hhp]
      simp only
      rw [if_pos hcond]
      simp only [hexp, List.map_cons, List.map_nil]
      refine ⟨?_, ?_, ?_⟩
      · rw [sweepAux_getElem_not_mem now rest (hp.set b.2 _) b.2 hbni]
        rw [List.getElem?_set]
        have hlt : b.2 < hp.length := (List.getElem?_eq_some.mp hhp).1
        simp [hlt]
      · rw [List.singleton_append, List.count_cons]
        have hnotin : (b.2, HuntEvent.timeoutCb) ∉
            (sweepAux now rest (hp.set b.2 { h with is_expired := true })).2.1 := by
          intro hin
          exact hbni (sweepAux_event_idx now rest _ _ hin)
        rw [List.count_eq_zero.mpr hnotin]
        simp
      · rw [hbR]
        exact List.mem_cons_self R _
    · rw [if_neg hbR] at hlk
      have hiv : i ∈ rest.map Prod.snd := lookupA_mem_values rest R i hlk
      have hbi : b.2 ≠ i := fun he => hbni (he ▸ hiv)
      unfold sweepAux
      cases hhb : hp[b.2]? with
      | none => exact ih hp R i h hndr hlk hhp ht hx hacc hcb
      | some g =>
        simp only
        split
        · simp only
          have hset : (hp.set b.2 g.expire.1)[i]? = some h := by
            rw [List.getElem?_set_ne hbi]
            exact hhp
          obtain ⟨c1, c2, c3⟩ := ih (hp.set b.2 g.expire.1) R i h hndr hlk hset ht hx hacc hcb
          refine ⟨c1, ?_, List.mem_cons_of_mem b.1 c3⟩
          rw [List.count_append, c2]
          have hzero : List.count (i, HuntEvent.timeoutCb)
              (g.expire.2.map fun e => (b.2, e)) = 0 := by
            apply List.count_eq_zero.mpr
            intro hin
            rcases List.mem_map.mp hin with ⟨e, _, heq⟩
            exact hbi (congrArg Prod.fst heq)
          rw [hzero]
        · exact ih hp R i h hndr hlk hhp ht hx hacc hcb

/-- C3: one pass of the deadline sweep, for every active hunt whose
expiry lies strictly in the past and which is neither expired nor
accepted (and has a timeout callback), marks that hunt expired, fires
its on_timeout callback exactly once, and removes it from the active
set, so get_active_hunt for its ticket id returns none afterwards. -/
theorem monitor_pass_expires_due_hunt (s : HuntService) (now : Int)
    (R : String) (i : Nat) (h : HuntRequest)
    (hnd : (s.active_hunts.map Prod.snd).Nodup)
    (hlk : lookupA s.active_hunts R = some i)
    (hhp : s.heap[i]? = some h)
    (ht : now > h.expires_at) (hx : h.is_expired = false)
    (hacc : h.accepted_by = none) (hcb : h.has_on_timeout_callback = true) :
    (s.monitor_timeouts_once now).1.heap[i]? = some { h with is_expired := true } ∧
    List.count (i, HuntEvent.timeoutCb) (s.monitor_timeouts_once now).2 = 1 ∧
    (s.monitor_timeouts_once now).1.get_active_hunt R = none := by
  obtain ⟨c1, c2, c3⟩ :=
    sweepAux_expires now s.active_hunts s.heap R i h hnd hlk hhp ht hx hacc hcb
  unfold HuntService.monitor_timeouts_once
  refine ⟨c1, c2, ?_⟩
  unfold HuntService.get_active_hunt
  simp only
  rw [lookupA_foldl_eraseA_mem _ _ _ c3]

/-- Witness for the C3 theorem: the concrete engine state whose single
active hunt expires at time 5, swept at time 10. -/
theorem monitor_pass_expires_due_hunt_witness :
    ((serviceSmall.active_hunts.map Prod.snd).Nodup ∧
      lookupA serviceSmall.active_hunts "t1" = some 0 ∧
      serviceSmall.heap[0]? = some huntFresh ∧
      (10 : Int) > huntFresh.expires_at ∧ huntFresh.is_expired = false ∧
      huntFresh.accepted_by = none ∧ huntFresh.has_on_timeout_callback = true) ∧
    ((serviceSmall.monitor_timeouts_once 10).1.heap[0]? =
        some { huntFresh with is_expired := true } ∧
      List.count (0, HuntEvent.timeoutCb) (serviceSmall.monitor_timeouts_once 10).2 = 1 ∧
      (serviceSmall.monitor_timeouts_once 10).1.get_active_hunt "t1" = none) :=
  ⟨⟨by decide, by decide, by decide, by decide, by decide, by decide, by decide⟩,
   monitor_pass_expires_due_hunt serviceSmall 10 "t1" 0 huntFresh
     (by decide) (by decide) (by decide) (by decide) (by decide) (by decide) (by decide)⟩

theorem accept_eq_of_expired (h : HuntRequest) (eid ename : String)
    (hx : h.is_expired = true) : h.accept eid ename = (false, h, []) := by
  unfold HuntRequest.accept
  rw [hx]
  simp

theorem accept_eq_of_truthy (h : HuntRequest) (eid ename : String)
    (hx : h.is_expired = false) (htr : pyTruthyStrOpt h.accepted_by = true) :
    h.accept eid ename = (false, h, []) := by
  unfold HuntRequest.accept
  rw [hx, htr]
  simp

theorem accept_eq_of_free (h : HuntRequest) (eid ename : String)
    (hx : h.is_expired = false) (htr : pyTruthyStrOpt h.accepted_by = false) :
    h.accept eid ename =
      (true, { h with accepted_by := some eid },
       if h.has_on_accept_callback then [HuntEvent.acceptCb eid ename] else []) := by
  unfold HuntRequest.accept
  rw [hx, htr]
  simp

theorem activeHuntIdx_spec (s : HuntService) (tid : String) (i : Nat)
    (h : HuntRequest) (hidx : s.activeHuntIdx tid = some (i, h)) :
    lookupA s.active_hunts tid = some i ∧ s.heap[i]? = some h := by
  unfold HuntService.activeHuntIdx at hidx
  split at hidx
  · cases hidx
  · rename_i i2 hlk
    split at hidx
    · cases hidx
    · rename_i h2 hhp
      simp only [Option.some_inj, Prod.mk.injEq] at hidx
      obtain ⟨rfl, rfl⟩ := hidx
      exact ⟨hlk, hhp⟩

/-- Counterexample to C4 as stated: in a state whose active hunt has
accepted_by set to the empty string (set, hence already accepted in the
claim's sense, and not expired), accept_hunt nevertheless returns true
and fires the accept callback again, because the code tests accepted_by
with Python truthiness. -/
theorem accept_hunt_true_on_accepted_hunt :
    (serviceAcceptedEmpty.accept_hunt "t1" "E2" "Eve").1 = true ∧
    serviceAcceptedEmpty.get_active_hunt "t1" = some huntAcceptedEmpty ∧
    huntAcceptedEmpty.accepted_by.isSome = true ∧
    huntAcceptedEmpty.is_expired = false ∧
    (serviceAcceptedEmpty.accept_hunt "t1" "E2" "Eve").2.2 =
      [(0, HuntEvent.acceptCb "E2" "Eve")] := by
  decide

/-- C4 (amended): accept_hunt returns true iff an active hunt exists for
the ticket id that is not expired and whose accepted_by is falsy (none
or the empty string — the amendment forced by Python truthiness); when
it returns false it leaves the engine state unchanged and fires no
callback, and in particular any claim on an expired hunt returns false
with no callback. Totality of the embedding reflects that no exception
is raised. -/
theorem accept_hunt_exact (s : HuntService) (tid eid ename : String) :
    ((s.accept_hunt tid eid ename).1 = true ↔
      ∃ i h, s.activeHuntIdx tid = some (i, h) ∧ h.is_expired = false ∧
        pyTruthyStrOpt h.accepted_by = false) ∧
    ((s.accept_hunt tid eid ename).1 = false →
      (s.accept_hunt tid eid ename).2.1 = s ∧
      (s.accept_hunt tid eid ename).2.2 = []) := by
  cases hidx : s.activeHuntIdx tid with
  | none =>
    simp only [HuntService.accept_hunt, hidx]
    simp
  | some p =>
    obtain ⟨i, h⟩ := p
    obtain ⟨hlk, hhp⟩ := activeHuntIdx_spec s tid i h hidx
    by_cases hx : h.is_expired
    · simp only [HuntService.accept_hunt, hidx, accept_eq_of_expired h eid ename hx]
      simp only [Bool.false_eq_true, if_false, List.map_nil]
      constructor
      · simp only [false_iff]
        rintro ⟨i2, h2, heq, hex, _⟩
        rw [Option.some_inj, Prod.mk.injEq] at heq
        obtain ⟨rfl, rfl⟩ := heq
        rw [hx] at hex
        cases hex
      · intro _
        constructor
        · rw [set_getElem_self s.heap i h hhp]
        · trivial
    · rw [Bool.not_eq_true] at hx
      by_cases htr : pyTruthyStrOpt h.accepted_by
      · simp only [HuntService.accept_hunt, hidx, accept_eq_of_truthy h eid ename hx htr]
        simp only [Bool.false_eq_true, if_false, List.map_nil]
        constructor
        · simp only [false_iff]
          rintro ⟨i2, h2, heq, _, hfree⟩
          rw [Option.some_inj, Prod.mk.injEq] at heq
          obtain ⟨rfl, rfl⟩ := heq
          rw [htr] at hfree
          cases hfree
        · intro _
          constructor
          · rw [set_getElem_self s.heap i h hhp]
          · trivial
      · rw [Bool.not_eq_true] at htr
        simp only [HuntService.accept_hunt, hidx, accept_eq_of_free h eid ename hx htr]
        simp only [if_true]
        constructor
        · simp only [true_iff]
          exact ⟨i, h, rfl, hx, htr⟩
        · intro hcontra
          cases hcontra

/-- Witness for the amended C4 theorem at the concrete state whose
active hunt is fresh: the claim succeeds, matching the iff. -/
theorem accept_hunt_exact_witness :
    ((serviceSmall.accept_hunt "t1" "E1" "Nia").1 = true ↔
      ∃ i h, serviceSmall.activeHuntIdx "t1" = some (i, h) ∧
        h.is_expired = false ∧ pyTruthyStrOpt h.accepted_by = false) ∧
    ((serviceSmall.accept_hunt "t1" "E1" "Nia").1 = false →
      (serviceSmall.accept_hunt "t1" "E1" "Nia").2.1 = serviceSmall ∧
      (serviceSmall.accept_hunt "t1" "E1" "Nia").2.2 = []) :=
  accept_hunt_exact serviceSmall "t1" "E1" "Nia"

theorem lookupA_insertA_self (a : List (String × Nat)) (k : String) (v : Nat) :
    lookupA (insertA a k v) k = some v := by
  induction a with
  | nil => simp [insertA, lookupA]
  | cons p rest ih =>
    unfold insertA
    by_cases hp : p.1 = k
    · rw [if_pos hp]
      unfold lookupA
      simp
    · rw [if_neg hp]
      unfold lookupA
      rw [if_neg hp]
      exact ih

theorem mem_find_experts_by_expertise (db : List SubjectMatterExpert)
    (T : List String) (ao : Bool) (e : SubjectMatterExpert) :
    e ∈ find_experts_by_expertise db T ao ↔
      e ∈ db ∧ ((!ao || e.is_available) && e.has_any_expertise T) = true := by
  unfold find_experts_by_expertise matchingExperts
  rw [mem_sortD, List.mem_filter]

theorem mark_notified_ne_nil (h : HuntRequest) (e : String) :
    (h.mark_notified e).notified_experts ≠ [] := by
  unfold HuntRequest.mark_notified
  split
  · rename_i hm
    exact List.ne_nil_of_mem hm
  · simp

theorem mark_notified_fields (h : HuntRequest) (e : String) :
    (h.mark_notified e).accepted_by = h.accepted_by ∧
    (h.mark_notified e).is_expired = h.is_expired := by
  unfold HuntRequest.mark_notified
  split
  · exact ⟨rfl, rfl⟩
  · exact ⟨rfl, rfl⟩

theorem foldl_mark_keeps_ne_nil :
    ∀ (es : List SubjectMatterExpert) (h : HuntRequest),
      h.notified_experts ≠ [] →
      (es.foldl (fun h2 e => h2.mark_notified e.slack_id) h).notified_experts ≠ [] := by
  intro es
  induction es with
  | nil =>
    intro h hne
    exact hne
  | cons e rest ih =>
    intro h _
    simp only [List.foldl_cons]
    exact ih _ (mark_notified_ne_nil h e.slack_id)

theorem foldl_mark_fields :
    ∀ (es : List SubjectMatterExpert) (h : HuntRequest),
      (es.foldl (fun h2 e => h2.mark_notified e.slack_id) h).accepted_by = h.accepted_by ∧
      (es.foldl (fun h2 e => h2.mark_notified e.slack_id) h).is_expired = h.is_expired := by
  intro es
  induction es with
  | nil =>
    intro h
    exact ⟨rfl, rfl⟩
  | cons e rest ih =>
    intro h
    simp only [List.foldl_cons]
    obtain ⟨f1, f2⟩ := mark_notified_fields h e.slack_id
    obtain ⟨g1, g2⟩ := ih (h.mark_notified e.slack_id)
    exact ⟨g1.trans f1, g2.trans f2⟩

theorem find_experts_for_hunt_ne_nil (s : HuntService) (user : User)
    (T : List String)
    (hex : ∃ e ∈ s.sme_database, e.has_any_expertise T = true) :
    s.find_experts_for_hunt user T ≠ [] := by
  obtain ⟨e, hedb, hm⟩ := hex
  simp only [HuntService.find_experts_for_hunt]
  by_cases h2 : (if user.level = UserLevel.vip
      then sortD (rankKey T) (find_experts_by_expertise s.sme_database T true)
      else find_experts_by_expertise s.sme_database T true).isEmpty = true
  · rw [if_pos h2]
    have hmem : e ∈ find_experts_by_expertise s.sme_database T false :=
      (mem_find_experts_by_expertise s.sme_database T false e).mpr ⟨hedb, by simp [hm]⟩
    exact List.ne_nil_of_mem hmem
  · rw [if_neg h2]
    intro hnil
    apply h2
    rw [hnil]
    rfl

/-- C7: whenever some expert in the database has matching expertise
(available or not), start_hunt produces a hunt whose notified set is
non-empty: if no available expert matched, the engine re-queries without
the availability filter before marking notifications. -/
theorem start_hunt_notifies_on_match (s : HuntService) (t : Ticket)
    (T : List String) (acb tcb : Bool) (tm : Option Int) (now : Int)
    (hex : ∃ e ∈ s.sme_database, e.has_any_expertise T = true) :
    ∃ hn, (s.start_hunt t T acb tcb tm now).1.heap[(s.start_hunt t T acb tcb tm now).2.1]? =
        some hn ∧
      hn.notified_experts ≠ [] := by
  have hne := find_experts_for_hunt_ne_nil s t.user T hex
  simp only [HuntService.start_hunt]
  refine ⟨_, List.getElem?_concat_length _ _, ?_⟩
  cases hes : s.find_experts_for_hunt t.user T with
  | nil => exact absurd hes hne
  | cons e rest =>
    simp only [List.foldl_cons]
    exact foldl_mark_keeps_ne_nil rest _ (mark_notified_ne_nil _ e.slack_id)

/-- Witness for the C7 theorem: a database whose only expert matches the
required tag python. -/
theorem start_hunt_notifies_on_match_witness :
    (∃ e ∈ servicePy.sme_database, e.has_any_expertise ["python"] = true) ∧
    ∃ hn, (servicePy.start_hunt ticket1 ["python"] true true none 0).1.heap[
        (servicePy.start_hunt ticket1 ["python"] true true none 0).2.1]? = some hn ∧
      hn.notified_experts ≠ [] :=
  ⟨by decide,
   start_hunt_notifies_on_match servicePy ticket1 ["python"] true true none 0 (by decide)⟩

/-- C8: starting a hunt for a ticket id that already has an active hunt
H replaces H as the active hunt (get_active_hunt now yields the freshly
allocated hunt, which is unsettled), fires no callback, and leaves the
object H itself untouched in the heap — H is neither accepted nor
expired by the replacement. -/
theorem start_hunt_replaces_without_settling (s : HuntService) (t : Ticket)
    (T : List String) (acb tcb : Bool) (tm : Option Int) (now : Int)
    (i : Nat) (H : HuntRequest)
    (hlk : lookupA s.active_hunts t.id = some i)
    (hhp : s.heap[i]? = some H) :
    lookupA (s.start_hunt t T acb tcb tm now).1.active_hunts t.id =
      some (s.start_hunt t T acb tcb tm now).2.1 ∧
    (s.start_hunt t T acb tcb tm now).2.1 = s.heap.length ∧
    (s.start_hunt t T acb tcb tm now).1.heap[i]? = some H ∧
    (s.start_hunt t T acb tcb tm now).2.2 = [] ∧
    ∃ hn, (s.start_hunt t T acb tcb tm now).1.get_active_hunt t.id = some hn ∧
      hn.accepted_by = none ∧ hn.is_expired = false := by
  have hlt : i < s.heap.length := (List.getElem?_eq_some.mp hhp).1
  simp only [HuntService.start_hunt]
  refine ⟨lookupA_insertA_self _ _ _, trivial, ?_, trivial, ?_⟩
  · rw [List.getElem?_append]
    simp [hlt, hhp]
  · refine ⟨List.foldl (fun h2 e => h2.mark_notified e.slack_id)
      (HuntRequest.init t T acb tcb tm s.hunt_timeout_minutes now)
      (s.find_experts_for_hunt t.user T), ?_, ?_, ?_⟩
    · simp only [HuntService.get_active_hunt, lookupA_insertA_self]
      exact List.getElem?_concat_length _ _
    · obtain ⟨f1, _⟩ := foldl_mark_fields (s.find_experts_for_hunt t.user T)
        (HuntRequest.init t T acb tcb tm s.hunt_timeout_minutes now)
      rw [f1]
      rfl
    · obtain ⟨_, f2⟩ := foldl_mark_fields (s.find_experts_for_hunt t.user T)
        (HuntRequest.init t T acb tcb tm s.hunt_timeout_minutes now)
      rw [f2]
      rfl

/-- Witness for the C8 theorem at the concrete one-hunt state: the hunt
for t1 is replaced and the original hunt object is unchanged. -/
theorem start_hunt_replaces_without_settling_witness :
    (lookupA serviceSmall.active_hunts ticket1.id = some 0 ∧
      serviceSmall.heap[0]? = some huntFresh) ∧
    (lookupA (serviceSmall.start_hunt ticket1 ["k8s"] true true (some 5) 7).1.active_hunts
        ticket1.id = some (serviceSmall.start_hunt ticket1 ["k8s"] true true (some 5) 7).2.1 ∧
      (serviceSmall.start_hunt ticket1 ["k8s"] true true (some 5) 7).2.1 =
        serviceSmall.heap.length ∧
      (serviceSmall.start_hunt ticket1 ["k8s"] true true (some 5) 7).1.heap[0]? =
        some huntFresh ∧
      (serviceSmall.start_hunt ticket1 ["k8s"] true true (some 5) 7).2.2 = [] ∧
      ∃ hn, (serviceSmall.start_hunt ticket1 ["k8s"] true true (some 5) 7).1.get_active_hunt
          ticket1.id = some hn ∧
        hn.accepted_by = none ∧ hn.is_expired = false) :=
  ⟨⟨by decide, by decide⟩,
   start_hunt_replaces_without_settling serviceSmall ticket1 ["k8s"] true true
     (some 5) 7 0 huntFresh (by decide) (by decide)⟩

end SlackBot
